import Mathlib

/-!
Verification of the Kalshi-Sentinel watcher engine.

This file embeds the price-watcher core of the repository:
`src/stoploss-manager.ts` (class `StopLossManager`), `src/alert-manager.ts`
(class `AlertManager`) and `src/websocket-alert-manager.ts` (module-level
`startPositionAlert` and friends).

Modelling conventions:
- JS numbers carrying prices/quantities are embedded as `ℚ`.
- A possibly-absent JS field (`yes_price?: number`) is an `Option ℚ`;
  the JS falsiness test `!currentPrice` is `none` or `some 0`.
- Each WebSocket is a stream record in a ledger indexed by creation
  order; the manager's `Map` from watcher id to socket is an association
  list (JS `Map` preserves insertion order, which `getActive*` iteration
  uses, and `Map.set` replaces a live binding in place).
- Two registry models are developed. The synchronous registry
  (`RegState`) covers the operations whose close-and-delete the source
  performs back to back at one call site (explicit stop, stop-all,
  listing, and the fired stop-loss tick, whose handler deletes its own
  map entry right after `ws.close()`). The event-loop registry (`AState`)
  additionally models the asynchronous socket lifecycle of the source:
  `ws.close()` only initiates the closing handshake and a CLOSING socket
  still delivers messages; the socket's `close` handler — and its map
  delete — runs on a later event-loop turn; and a fired message handler
  suspends at its awaited side effect, performing its own
  `ws.close()`-and-delete only when it resumes, so further ticks can be
  processed in between.
-/

namespace KalshiSentinel

/-- The `'yes' | 'no'` side of a Kalshi market. -/
inductive Side
  | yes
  | no
deriving DecidableEq, Repr

/-- The string the source interpolates for a side. -/
def sideStr : Side → String
  | .yes => "yes"
  | .no => "no"

/-- `interface MarketUpdate` (stoploss-manager.ts / alert-manager.ts):
`{ market_ticker, yes_price?, no_price?, timestamp? }`. -/
structure MarketUpdate where
  market_ticker : String
  yes_price : Option ℚ
  no_price : Option ℚ
deriving DecidableEq, Repr

/-- A parsed WebSocket message `{ type, data }` as consumed by the
`ws.on('message')` handlers. -/
structure WsMessage where
  type : String
  data : MarketUpdate
deriving DecidableEq, Repr

/-- `stopLoss.side === 'yes' ? data.yes_price : data.no_price`. -/
def sidePrice (side : Side) (d : MarketUpdate) : Option ℚ :=
  match side with
  | .yes => d.yes_price
  | .no => d.no_price

/-! ## Stop-loss watcher configuration and trigger evaluation
(stoploss-manager.ts lines 16-24, 101-136) -/

/-- `interface StopLossOrder` (credentials omitted: they only feed the
external signing collaborator). -/
structure StopLossOrder where
  userId : String
  marketTicker : String
  side : Side
  basePrice : ℚ
  dropPercentage : ℚ
deriving DecidableEq, Repr

/-- `const stopLossId = userId-marketTicker-side` (line 45). -/
def slKey (sl : StopLossOrder) : String :=
  sl.userId ++ "-" ++ sl.marketTicker ++ "-" ++ sideStr sl.side

/-- `const triggerPrice = stopLoss.basePrice * (1 - stopLoss.dropPercentage / 100)`
(line 117). -/
def slTriggerPrice (sl : StopLossOrder) : ℚ :=
  sl.basePrice * (1 - sl.dropPercentage / 100)

/-- Per-tick trigger decision. -/
inductive Decision
  | ignore
  | armed
deriving DecidableEq, Repr

/-- The stop-loss evaluator embedded from the message handler
(lines 111-125): take the watched side's price, return on the JS-falsy
guard `if (!currentPrice) return`, then compare
`currentPrice <= triggerPrice`. -/
def slEvaluate (sl : StopLossOrder) (d : MarketUpdate) : Decision :=
  match sidePrice sl.side d with
  | none => .ignore
  | some p =>
      if p = 0 then .ignore
      else if p ≤ slTriggerPrice sl then .armed
      else .ignore

/-- Whether a full incoming message makes the stop-loss handler fire
(lines 101-126): message type check, ticker filter, price guard, price
comparison, and the `!hasExecuted` re-entrancy guard. -/
def slFires (sl : StopLossOrder) (hasExecuted : Bool) (m : WsMessage) : Bool :=
  if m.type = "market_ticker" then
    if m.data.market_ticker = sl.marketTicker then
      decide (slEvaluate sl m.data = Decision.armed) && !hasExecuted
    else false
  else false

/-! ## Alert watcher configuration and trigger evaluation
(alert-manager.ts lines 16-24, 100-127) -/

/-- `interface PriceAlert` (credentials omitted as above). -/
structure PriceAlert where
  userId : String
  marketTicker : String
  side : Side
  basePrice : ℚ
  percentageThreshold : ℚ
deriving DecidableEq, Repr

/-- `const alertId = userId-marketTicker-side` (alert-manager.ts line 45). -/
def alertKey (a : PriceAlert) : String :=
  a.userId ++ "-" ++ a.marketTicker ++ "-" ++ sideStr a.side

/-- `const triggerPrice = alert.basePrice * (1 + alert.percentageThreshold / 100)`
(alert-manager.ts line 116). -/
def alertTriggerPrice (a : PriceAlert) : ℚ :=
  a.basePrice * (1 + a.percentageThreshold / 100)

/-- The alert evaluator embedded from the message handler (lines 110-118):
watched side's price, JS-falsy guard, then `currentPrice >= triggerPrice`. -/
def alertEvaluate (a : PriceAlert) (d : MarketUpdate) : Decision :=
  match sidePrice a.side d with
  | none => .ignore
  | some p =>
      if p = 0 then .ignore
      else if alertTriggerPrice a ≤ p then .armed
      else .ignore

/-- Whether a full incoming message makes the alert handler fire
(lines 100-118). Unlike the stop-loss handler there is no `hasExecuted`
guard; at-most-once relies on the stream being closed after the trigger. -/
def alertFires (a : PriceAlert) (m : WsMessage) : Bool :=
  if m.type = "market_ticker" then
    if m.data.market_ticker = a.marketTicker then
      decide (alertEvaluate a m.data = Decision.armed)
    else false
  else false

/-! ## Single-stream tick processing

A view of one watcher's message handler used for the properties of
ticks that do NOT fire: the handler closure carries `hasExecuted`
(stop-loss only) and the socket. `fires` counts execution-pipeline runs
(stop-loss) / notifications (alert). These step functions fuse the fire
with the close into one step, which is NOT how the source behaves on a
fire (the close happens only after an awaited side effect — see the
event-loop model below); they are used only to state that an ignored
tick leaves the handler state unchanged. -/

/-- The mutable state of one watcher's message handler. -/
structure TickState where
  hasExecuted : Bool
  closed : Bool
  fires : Nat
deriving DecidableEq, Repr

/-- Handler state when the stream is opened. -/
def initTickState : TickState := ⟨false, false, 0⟩

/-- One stop-loss message event (stoploss-manager.ts lines 101-136),
with the post-fire close fused in; faithful for non-firing ticks. -/
def slHandle (sl : StopLossOrder) (st : TickState) (m : WsMessage) : TickState :=
  if st.closed then st
  else if slFires sl st.hasExecuted m then ⟨true, true, st.fires + 1⟩
  else st

/-- One alert message event (alert-manager.ts lines 100-127), with the
post-fire close fused in; faithful for non-firing ticks (the source
closes only after awaiting the alert send and has no `hasExecuted`
flag). -/
def alertHandle (a : PriceAlert) (st : TickState) (m : WsMessage) : TickState :=
  if st.closed then st
  else if alertFires a m then ⟨st.hasExecuted, true, st.fires + 1⟩
  else st

/-! ## The stop-loss execution pipeline
(`StopLossManager.executeSellOrder`, stoploss-manager.ts lines 156-234) -/

/-- One entry of `positionsData.market_positions`; `position_fp` is a
string run through `parseFloat`, so an unparsable value is `none`. -/
structure KPosition where
  ticker : String
  position_fp : Option ℚ
deriving DecidableEq, Repr

/-- The order object returned by the venue on success. -/
structure KOrder where
  order_id : String
  quantity : ℚ
  status : Option String
deriving DecidableEq, Repr

/-- Result of the signed GET of `/portfolio/positions`: either a response
body (whose `market_positions` field may be absent) or a thrown error. -/
inductive FetchOutcome
  | success (market_positions : Option (List KPosition))
  | failure (message : String)
deriving DecidableEq, Repr

/-- Result of the signed POST of `/portfolio/orders`: either a response
(whose `order` field may be absent) or a thrown error. -/
inductive SubmitOutcome
  | success (order : Option KOrder)
  | failure (message : String)
deriving DecidableEq, Repr

/-- Terminal state of one pipeline run (spec section 4.4). -/
inductive Terminal
  | filled (order : Option KOrder)
  | noPosition
  | fetchFailed (message : String)
  | orderFailed (message : String)
deriving DecidableEq, Repr

/-- One direct message produced by `sendStopLossDM`: the recipient, the
`errorMessage` argument and the `order` argument. -/
structure Notification where
  userId : String
  errorMessage : Option String
  order : Option KOrder
deriving DecidableEq, Repr

/-- The result of one `executeSellOrder` run. `orderSubmitted` records
whether the order POST was attempted at all. -/
structure PipelineResult where
  terminal : Terminal
  notifications : List Notification
  orderSubmitted : Bool
deriving DecidableEq, Repr

/-- Position sizing (lines 178-186): `positionQuantity` starts at 0, and
becomes `parseFloat(position.position_fp) || 0` when
`market_positions.find(p => p.ticker === ticker)` matches. -/
def positionQuantity (market_positions : Option (List KPosition)) (ticker : String) : ℚ :=
  match market_positions with
  | none => 0
  | some ps =>
      match ps.find? (fun p => p.ticker = ticker) with
      | none => 0
      | some p => p.position_fp.getD 0

/-- `StopLossManager.executeSellOrder` (lines 156-234), with the two
signed REST calls abstracted as outcomes. The `catch` wraps both calls,
so either failure sends one DM carrying the error message; `quantity ≤ 0`
sends the `'Position not found'` DM without submitting; success sends one
DM carrying the returned order. -/
def executeSellOrder (sl : StopLossOrder) (fetch : FetchOutcome)
    (submit : SubmitOutcome) : PipelineResult :=
  match fetch with
  | .failure msg =>
      ⟨.fetchFailed msg, [⟨sl.userId, some msg, none⟩], false⟩
  | .success ps =>
      if positionQuantity ps sl.marketTicker ≤ 0 then
        ⟨.noPosition, [⟨sl.userId, some "Position not found", none⟩], false⟩
      else
        match submit with
        | .failure msg => ⟨.orderFailed msg, [⟨sl.userId, some msg, none⟩], true⟩
        | .success ord => ⟨.filled ord, [⟨sl.userId, none, ord⟩], true⟩

/-! ## The watcher registry

`StopLossManager` and `AlertManager` are structurally identical
registries (spec section 9 calls them near-duplicate managers): a `Map`
from the composite key string to the live socket, with
start (supersede) / stop / stopAll / list and the per-socket handlers.
We model the registry once, generic in the watcher-configuration type
`α`, the key function and the fire predicate, and instantiate it with
`slKey`/`slFires` for `StopLossManager` and `alertKey`/`alertFires` for
`AlertManager`. -/

/-- One WebSocket ever created by a registry: the key it was registered
under, its watcher configuration, whether it is still open, and the
handler's `hasExecuted` flag (constantly `false` for the alert manager,
which has no such variable). -/
structure RegStream (α : Type) where
  key : String
  cfg : α
  isOpen : Bool
  hasExecuted : Bool
deriving DecidableEq, Repr

/-- A registry state: the ledger of all sockets ever created (by creation
index), the `Map` of active watchers as an insertion-ordered association
list, and the next fresh socket index. -/
structure RegState (α : Type) where
  streams : Nat → Option (RegStream α)
  active : List (String × Nat)
  nextId : Nat

/-- The empty registry (`new Map()`). -/
def initReg (α : Type) : RegState α := ⟨fun _ => none, [], 0⟩

/-- `Map.get`: first binding of the key. -/
def lookupKey : List (String × Nat) → String → Option Nat
  | [], _ => none
  | (k1, v) :: rest, k => if k1 = k then some v else lookupKey rest k

/-- `Map.delete`: drop the binding of the key. -/
def eraseKey (m : List (String × Nat)) (k : String) : List (String × Nat) :=
  m.filter (fun e => decide (e.1 ≠ k))

/-- `Map.set`: replace the binding in place if present, else append. -/
def setKey : List (String × Nat) → String → Nat → List (String × Nat)
  | [], k, v => [(k, v)]
  | (k1, v1) :: rest, k, v =>
      if k1 = k then (k, v) :: rest else (k1, v1) :: setKey rest k v

/-- Point update of the socket ledger. -/
def setStream {α : Type} (streams : Nat → Option (RegStream α)) (i : Nat)
    (s : RegStream α) : Nat → Option (RegStream α) :=
  fun j => if j = i then some s else streams j

/-- The combined effect of `ws.close()` together with the removal of the
socket's key from the map. The source performs these back to back at the
synchronous call sites this model covers: explicit stop (lines 366-367
resp. 299-300), the stop-all loop, and the fired stop-loss tick
(lines 130-131); the socket's own `close` handler (lines 142-145 resp.
133-136) deletes the same key again, idempotently at these sites. The
deferred, per-turn timing of the close event itself is modelled
separately by the event-loop registry below. -/
def closeWs {α : Type} (st : RegState α) (i : Nat) : RegState α :=
  match st.streams i with
  | none => st
  | some s =>
      if s.isOpen then
        ⟨setStream st.streams i ⟨s.key, s.cfg, false, s.hasExecuted⟩,
         eraseKey st.active s.key, st.nextId⟩
      else st

/-- Open a fresh socket for `cfg` and register it under `key`
(`new WebSocket(...)` followed by `Map.set`). -/
def registerNew {α : Type} (st : RegState α) (key : String) (cfg : α) :
    RegState α :=
  ⟨setStream st.streams st.nextId ⟨key, cfg, true, false⟩,
   setKey st.active key st.nextId, st.nextId + 1⟩

/-- `Map.delete` lifted to the registry state. -/
def removeKey {α : Type} (st : RegState α) (k : String) : RegState α :=
  ⟨st.streams, eraseKey st.active k, st.nextId⟩

/-- `startStopLoss` / `startAlert` (lines 44-151 resp. 44-142): close any
existing socket under the key, then open a fresh socket and register it
under the key. This synchronous view idealizes the supersede: in the
source the superseded socket's close handler runs only on a later
event-loop turn (see `startA` below for the faithful ordering); it is
used here for the stop/list-level properties, whose traces it shares
with the source. -/
def startWatch {α : Type} (keyOf : α → String) (st : RegState α) (cfg : α) :
    RegState α :=
  match lookupKey st.active (keyOf cfg) with
  | some oldId => registerNew (closeWs st oldId) (keyOf cfg) cfg
  | none => registerNew st (keyOf cfg) cfg

/-- `stopStopLoss` / `stopAlert` (lines 361-372 resp. 294-305): if the
key is bound, close the socket, delete the entry and return `true`; else
return `false`. -/
def stopWatch {α : Type} (st : RegState α) (userId marketTicker side : String) :
    Bool × RegState α :=
  match lookupKey st.active (userId ++ "-" ++ marketTicker ++ "-" ++ side) with
  | some i =>
      (true, removeKey (closeWs st i) (userId ++ "-" ++ marketTicker ++ "-" ++ side))
  | none => (false, st)

/-- JS `String.prototype.startsWith`. -/
def jsStartsWith (s pre : String) : Bool :=
  pre.data.isPrefixOf s.data

/-- `getActiveStopLosses` / `getActiveAlerts` (lines 377-381 resp.
310-314): all keys of the map that start with the user id. -/
def listWatches {α : Type} (st : RegState α) (userId : String) : List String :=
  (st.active.map Prod.fst).filter (fun k => jsStartsWith k userId)

/-- The body of the `stopAll` loop for one listed key: close the socket
if the key is still bound and delete the entry. -/
def stopOneKey {α : Type} (st : RegState α) (k : String) : RegState α :=
  match lookupKey st.active k with
  | some i => removeKey (closeWs st i) k
  | none => st

/-- `stopAllStopLosses` / `stopAllAlerts` (lines 386-394 resp. 319-327):
close and delete every listed key, return how many keys were listed. -/
def stopAllWatches {α : Type} (st : RegState α) (userId : String) :
    Nat × RegState α :=
  ((listWatches st userId).length, (listWatches st userId).foldl stopOneKey st)

/-- One tick delivered to socket `i` (a closed socket delivers nothing):
if the handler fires, set `hasExecuted`, run the trigger action, close
the socket and delete the map entry (stoploss-manager.ts lines 125-132 /
alert-manager.ts lines 118-123, where `hasExecuted` update is a no-op). -/
def deliverTick {α : Type} (firesOf : α → Bool → WsMessage → Bool)
    (st : RegState α) (i : Nat) (m : WsMessage) : RegState α :=
  match st.streams i with
  | none => st
  | some s =>
      if s.isOpen then
        if firesOf s.cfg s.hasExecuted m then
          closeWs
            ⟨setStream st.streams i ⟨s.key, s.cfg, s.isOpen, true⟩,
             st.active, st.nextId⟩ i
        else st
      else st

/-- The events a registry reacts to: the public methods, ticks on a
socket, and remote close of a socket. -/
inductive RegOp (α : Type)
  | start (cfg : α)
  | stop (userId marketTicker side : String)
  | stopAll (userId : String)
  | tick (i : Nat) (m : WsMessage)
  | closeEvt (i : Nat)

/-- Registry transition on one event. -/
def regStep {α : Type} (keyOf : α → String) (firesOf : α → Bool → WsMessage → Bool)
    (st : RegState α) : RegOp α → RegState α
  | .start cfg => startWatch keyOf st cfg
  | .stop u t s => (stopWatch st u t s).2
  | .stopAll u => (stopAllWatches st u).2
  | .tick i m => deliverTick firesOf st i m
  | .closeEvt i => closeWs st i

/-- Run a registry from empty over a sequence of events. -/
def runOps {α : Type} (keyOf : α → String) (firesOf : α → Bool → WsMessage → Bool)
    (ops : List (RegOp α)) : RegState α :=
  ops.foldl (regStep keyOf firesOf) (initReg α)

/-- The fire predicate of `StopLossManager`'s message handler. -/
def slFiresFn (sl : StopLossOrder) (hasExecuted : Bool) (m : WsMessage) : Bool :=
  slFires sl hasExecuted m

/-- The fire predicate of `AlertManager`'s message handler (no
`hasExecuted` guard). -/
def alertFiresFn (a : PriceAlert) (_hasExecuted : Bool) (m : WsMessage) : Bool :=
  alertFires a m

/-! ## The `websocket-alert-manager.ts` variant

Its registry shares the state shape but `startPositionAlert`
(lines 94-104) handles a duplicate key differently: it returns early
("Alert already active"), keeping the prior watcher and registering
nothing. Its key also omits the side (line 98). -/

/-- `interface PositionAlert` (websocket-alert-manager.ts lines 11-20,
credentials omitted). `threshold` is a fraction: `0.10 = 10%`. -/
structure PositionAlert where
  discordId : String
  marketTicker : String
  side : Side
  basePrice : ℚ
  threshold : ℚ
  contractsHeld : ℚ
deriving DecidableEq, Repr

/-- `const alertKey = discordId-marketTicker` (line 98). -/
def paKey (a : PositionAlert) : String :=
  a.discordId ++ "-" ++ a.marketTicker

/-- `startPositionAlert` (lines 94-208): on a duplicate key, log and
return without touching the prior watcher; otherwise open a fresh socket
and register it. -/
def startPositionAlert (st : RegState PositionAlert) (a : PositionAlert) :
    RegState PositionAlert :=
  if (lookupKey st.active (paKey a)).isSome then st
  else registerNew st (paKey a) a

/-! ## Association-list lemmas -/

theorem lookupKey_some_mem {m : List (String × Nat)} {k : String} {i : Nat}
    (h : lookupKey m k = some i) : (k, i) ∈ m := by
  induction m with
  | nil => simp [lookupKey] at h
  | cons e rest ih =>
    obtain ⟨k1, v⟩ := e
    by_cases hk : k1 = k
    · subst hk
      simp [lookupKey] at h
      subst h
      exact List.mem_cons_self _ _
    · simp [lookupKey, hk] at h
      exact List.mem_cons_of_mem _ (ih h)

theorem lookupKey_eq_none_iff {m : List (String × Nat)} {k : String} :
    lookupKey m k = none ↔ k ∉ m.map Prod.fst := by
  induction m with
  | nil => simp [lookupKey]
  | cons e rest ih =>
    obtain ⟨k1, v⟩ := e
    by_cases hk : k1 = k
    · subst hk
      simp [lookupKey]
    · have hk2 : k ≠ k1 := fun hq => hk hq.symm
      simp [lookupKey, hk, hk2, ih]

theorem mem_unique_of_nodupKeys {m : List (String × Nat)}
    (hnd : (m.map Prod.fst).Nodup) {k : String} {i j : Nat}
    (hi : (k, i) ∈ m) (hj : (k, j) ∈ m) : i = j := by
  induction m with
  | nil => cases hi
  | cons e rest ih =>
    obtain ⟨k1, v⟩ := e
    rw [List.map_cons, List.nodup_cons] at hnd
    rcases List.mem_cons.mp hi with h1 | h1
    · rcases List.mem_cons.mp hj with h2 | h2
      · cases h1
        cases h2
        rfl
      · cases h1
        exact absurd (List.mem_map_of_mem Prod.fst h2) hnd.1
    · rcases List.mem_cons.mp hj with h2 | h2
      · cases h2
        exact absurd (List.mem_map_of_mem Prod.fst h1) hnd.1
      · exact ih hnd.2 h1 h2

theorem mem_eraseKey {m : List (String × Nat)} {k k1 : String} {i : Nat} :
    (k1, i) ∈ eraseKey m k ↔ (k1, i) ∈ m ∧ k1 ≠ k := by
  simp [eraseKey, List.mem_filter]

theorem eraseKey_keys_sublist (m : List (String × Nat)) (k : String) :
    ((eraseKey m k).map Prod.fst).Sublist (m.map Prod.fst) :=
  List.Sublist.map _ (List.filter_sublist m)

theorem lookupKey_eraseKey_self (m : List (String × Nat)) (k : String) :
    lookupKey (eraseKey m k) k = none := by
  rw [lookupKey_eq_none_iff]
  intro hk
  obtain ⟨x, hx, hfst⟩ := List.mem_map.mp hk
  obtain ⟨k1, i⟩ := x
  rw [mem_eraseKey] at hx
  exact hx.2 hfst

theorem eraseKey_eq_self {m : List (String × Nat)} {k : String}
    (h : k ∉ m.map Prod.fst) : eraseKey m k = m := by
  apply List.filter_eq_self.mpr
  intro e he
  simp only [decide_eq_true_eq]
  intro hek
  exact h (hek ▸ List.mem_map_of_mem Prod.fst he)

theorem setKey_eq_append {m : List (String × Nat)} {k : String} (v : Nat)
    (h : k ∉ m.map Prod.fst) : setKey m k v = m ++ [(k, v)] := by
  induction m with
  | nil => rfl
  | cons e rest ih =>
    obtain ⟨k1, v1⟩ := e
    rw [List.map_cons] at h
    have hk1 : ¬ (k1 = k) := fun hq => h (by rw [hq]; exact List.mem_cons_self _ _)
    have h2 : k ∉ rest.map Prod.fst := fun hm => h (List.mem_cons_of_mem _ hm)
    simp [setKey, hk1, ih h2]

/-! ## The registry invariant

Well-formedness of a registry state: map keys are distinct, socket
indices below `nextId` only, every map entry points at an open socket
registered under its key, and every open socket is in the map under its
key. -/

structure RegInv {α : Type} (st : RegState α) : Prop where
  nodupKeys : (st.active.map Prod.fst).Nodup
  bound : ∀ i, st.nextId ≤ i → st.streams i = none
  activeOpen : ∀ k i, (k, i) ∈ st.active →
    ∃ s, st.streams i = some s ∧ s.key = k ∧ s.isOpen = true
  openActive : ∀ i s, st.streams i = some s → s.isOpen = true →
    (s.key, i) ∈ st.active

theorem regInv_init (α : Type) : RegInv (initReg α) := by
  constructor
  · exact List.nodup_nil
  · intro i _
    rfl
  · intro k i hm
    cases hm
  · intro i s hs
    exact absurd hs (by simp [initReg])

theorem lt_nextId_of_some {α : Type} {st : RegState α} (h : RegInv st)
    {i : Nat} {s : RegStream α} (hs : st.streams i = some s) : i < st.nextId := by
  by_contra hcon
  push_neg at hcon
  rw [h.bound i hcon] at hs
  cases hs

theorem regInv_closeWs {α : Type} {st : RegState α} (h : RegInv st) (i : Nat) :
    RegInv (closeWs st i) := by
  unfold closeWs
  cases hs : st.streams i with
  | none => exact h
  | some s =>
    dsimp only
    by_cases ho : s.isOpen = true
    · rw [if_pos ho]
      constructor
      · exact h.nodupKeys.sublist (eraseKey_keys_sublist _ _)
      · intro j hj
        dsimp only at hj ⊢
        have hlt := lt_nextId_of_some h hs
        have hne : j ≠ i := by omega
        simp only [setStream, hne, if_false]
        exact h.bound j hj
      · intro k j hm
        dsimp only at hm ⊢
        rw [mem_eraseKey] at hm
        obtain ⟨t, ht, hk, hop⟩ := h.activeOpen k j hm.1
        have hji : j ≠ i := by
          intro he
          rw [he, hs] at ht
          injection ht with ht
          exact hm.2 (by rw [← hk, ht])
        exact ⟨t, by simp [setStream, hji, ht], hk, hop⟩
      · intro j t ht hop
        dsimp only at ht ⊢
        by_cases hji : j = i
        · subst hji
          simp only [setStream, if_pos rfl] at ht
          injection ht with ht
          rw [← ht] at hop
          cases hop
        · simp only [setStream, hji, if_false] at ht
          have hm := h.openActive j t ht hop
          rw [mem_eraseKey]
          refine ⟨hm, ?_⟩
          intro hkey
          have hmi := h.openActive _ s hs ho
          rw [hkey] at hm
          exact hji (mem_unique_of_nodupKeys h.nodupKeys hm hmi)
    · rw [if_neg ho]
      exact h

theorem closeWs_key_not_mem {α : Type} {st : RegState α} (h : RegInv st)
    {k : String} {i : Nat} (hl : lookupKey st.active k = some i) :
    k ∉ (closeWs st i).active.map Prod.fst := by
  have hmem := lookupKey_some_mem hl
  obtain ⟨s, hs, hk, ho⟩ := h.activeOpen k i hmem
  unfold closeWs
  rw [hs]
  dsimp only
  rw [if_pos ho]
  intro hin
  obtain ⟨x, hx, hfst⟩ := List.mem_map.mp hin
  obtain ⟨k1, j⟩ := x
  rw [mem_eraseKey] at hx
  exact hx.2 (hfst.trans hk.symm)

theorem regInv_register {α : Type} {st : RegState α} (h : RegInv st)
    {key : String} (cfg : α) (hkey : key ∉ st.active.map Prod.fst) :
    RegInv (registerNew st key cfg) := by
  have hset : setKey st.active key st.nextId = st.active ++ [(key, st.nextId)] :=
    setKey_eq_append _ hkey
  unfold registerNew
  constructor
  · dsimp only
    rw [hset, List.map_append]
    refine h.nodupKeys.append (List.nodup_singleton _) ?_
    intro a ha hb
    rw [List.map_singleton, List.mem_singleton] at hb
    subst hb
    exact hkey ha
  · intro j hj
    dsimp only at hj ⊢
    have hne : j ≠ st.nextId := by omega
    simp only [setStream, hne, if_false]
    exact h.bound j (by omega)
  · intro k1 i hm
    dsimp only at hm ⊢
    rw [hset, List.mem_append] at hm
    rcases hm with hm | hm
    · obtain ⟨s, hs, hk, hopn⟩ := h.activeOpen k1 i hm
      have hne : i ≠ st.nextId := by
        intro he
        rw [he, h.bound st.nextId (le_refl _)] at hs
        cases hs
      exact ⟨s, by simp [setStream, hne, hs], hk, hopn⟩
    · rw [List.mem_singleton] at hm
      rw [Prod.mk.injEq] at hm
      obtain ⟨hk, hi⟩ := hm
      subst hi
      exact ⟨⟨key, cfg, true, false⟩, by simp [setStream], hk.symm, rfl⟩
  · intro j t ht hop
    dsimp only at ht ⊢
    by_cases hje : j = st.nextId
    · subst hje
      simp only [setStream, if_pos rfl] at ht
      injection ht with ht
      rw [hset]
      refine List.mem_append.mpr (Or.inr ?_)
      rw [← ht]
      exact List.mem_singleton.mpr rfl
    · simp only [setStream, hje, if_false] at ht
      rw [hset]
      exact List.mem_append.mpr (Or.inl (h.openActive j t ht hop))

theorem regInv_startWatch {α : Type} (keyOf : α → String) {st : RegState α}
    (h : RegInv st) (cfg : α) : RegInv (startWatch keyOf st cfg) := by
  unfold startWatch
  cases hl : lookupKey st.active (keyOf cfg) with
  | none => exact regInv_register h cfg (lookupKey_eq_none_iff.mp hl)
  | some oldId =>
    exact regInv_register (regInv_closeWs h oldId) cfg (closeWs_key_not_mem h hl)

theorem regInv_stopOneKey {α : Type} {st : RegState α} (h : RegInv st)
    (k : String) : RegInv (stopOneKey st k) := by
  unfold stopOneKey
  cases hl : lookupKey st.active k with
  | none => exact h
  | some i =>
    dsimp only
    unfold removeKey
    rw [eraseKey_eq_self (closeWs_key_not_mem h hl)]
    exact regInv_closeWs h i

theorem regInv_stopWatch {α : Type} {st : RegState α} (h : RegInv st)
    (u t s : String) : RegInv (stopWatch st u t s).2 := by
  unfold stopWatch
  cases hl : lookupKey st.active (u ++ "-" ++ t ++ "-" ++ s) with
  | none => exact h
  | some i =>
    dsimp only
    unfold removeKey
    rw [eraseKey_eq_self (closeWs_key_not_mem h hl)]
    exact regInv_closeWs h i

theorem regInv_deliverTick {α : Type} (firesOf : α → Bool → WsMessage → Bool)
    {st : RegState α} (h : RegInv st) (i : Nat) (m : WsMessage) :
    RegInv (deliverTick firesOf st i m) := by
  unfold deliverTick
  cases hs : st.streams i with
  | none => exact h
  | some s =>
    dsimp only
    by_cases ho : s.isOpen = true
    · rw [if_pos ho]
      by_cases hf : firesOf s.cfg s.hasExecuted m = true
      · rw [if_pos hf]
        apply regInv_closeWs
        constructor
        · exact h.nodupKeys
        · intro j hj
          dsimp only at hj ⊢
          have hlt := lt_nextId_of_some h hs
          have hne : j ≠ i := by omega
          simp only [setStream, hne, if_false]
          exact h.bound j hj
        · intro k j hm
          dsimp only at hm ⊢
          obtain ⟨t, ht, hk, hop⟩ := h.activeOpen k j hm
          by_cases hji : j = i
          · subst hji
            rw [hs] at ht
            injection ht with ht
            subst ht
            exact ⟨⟨s.key, s.cfg, s.isOpen, true⟩, by simp [setStream], hk, hop⟩
          · exact ⟨t, by simp [setStream, hji, ht], hk, hop⟩
        · intro j t ht hop
          dsimp only at ht ⊢
          by_cases hji : j = i
          · subst hji
            simp only [setStream, if_pos rfl] at ht
            injection ht with ht
            rw [← ht]
            exact h.openActive _ s hs ho
          · simp only [setStream, hji, if_false] at ht
            exact h.openActive j t ht hop
      · rw [if_neg hf]
        exact h
    · rw [if_neg ho]
      exact h

theorem foldl_preserve {α β : Type} (P : RegState α → Prop)
    (f : RegState α → β → RegState α) (hf : ∀ st b, P st → P (f st b)) :
    ∀ (l : List β) (st : RegState α), P st → P (l.foldl f st)
  | [], _, h => h
  | b :: l, st, h => foldl_preserve P f hf l (f st b) (hf st b h)

theorem regInv_regStep {α : Type} (keyOf : α → String)
    (firesOf : α → Bool → WsMessage → Bool) {st : RegState α} (h : RegInv st)
    (op : RegOp α) : RegInv (regStep keyOf firesOf st op) := by
  cases op with
  | start cfg => exact regInv_startWatch keyOf h cfg
  | stop u t s => exact regInv_stopWatch h u t s
  | stopAll u =>
    show RegInv ((listWatches st u).foldl stopOneKey st)
    exact foldl_preserve RegInv stopOneKey
      (fun st1 k h1 => regInv_stopOneKey h1 k) (listWatches st u) st h
  | tick i m => exact regInv_deliverTick firesOf h i m
  | closeEvt i => exact regInv_closeWs h i

theorem regInv_runOps {α : Type} (keyOf : α → String)
    (firesOf : α → Bool → WsMessage → Bool) (ops : List (RegOp α)) :
    RegInv (runOps keyOf firesOf ops) := by
  unfold runOps
  exact foldl_preserve RegInv (regStep keyOf firesOf)
    (fun st1 op h1 => regInv_regStep keyOf firesOf h1 op) ops (initReg α)
    (regInv_init α)

theorem regInv_atMostOne {α : Type} {st : RegState α} (h : RegInv st)
    {i j : Nat} {s t : RegStream α} (hi : st.streams i = some s)
    (hj : st.streams j = some t) (hoi : s.isOpen = true) (hoj : t.isOpen = true)
    (hk : s.key = t.key) : i = j := by
  have h1 := h.openActive i s hi hoi
  have h2 := h.openActive j t hj hoj
  rw [hk] at h1
  exact mem_unique_of_nodupKeys h.nodupKeys h1 h2

/-! ## Registry shape lemmas -/

theorem setStream_setStream {α : Type} (f : Nat → Option (RegStream α)) (i : Nat)
    (a b : RegStream α) : setStream (setStream f i a) i b = setStream f i b := by
  funext j
  unfold setStream
  by_cases hj : j = i
  · rw [if_pos hj, if_pos hj]
  · rw [if_neg hj, if_neg hj, if_neg hj]

theorem closeWs_shape {α : Type} {st : RegState α} {i : Nat} {s : RegStream α}
    (hs : st.streams i = some s) (ho : s.isOpen = true) :
    closeWs st i = ⟨setStream st.streams i ⟨s.key, s.cfg, false, s.hasExecuted⟩,
                    eraseKey st.active s.key, st.nextId⟩ := by
  unfold closeWs
  rw [hs]
  dsimp only
  rw [if_pos ho]

theorem deliverTick_fires {α : Type} (firesOf : α → Bool → WsMessage → Bool)
    {st : RegState α} {i : Nat} {s : RegStream α} (hs : st.streams i = some s)
    (ho : s.isOpen = true) {m : WsMessage}
    (hf : firesOf s.cfg s.hasExecuted m = true) :
    deliverTick firesOf st i m =
      ⟨setStream st.streams i ⟨s.key, s.cfg, false, true⟩,
       eraseKey st.active s.key, st.nextId⟩ := by
  unfold deliverTick
  rw [hs]
  dsimp only
  rw [if_pos ho, if_pos hf]
  have hs1 : (RegState.mk (α := α)
      (setStream st.streams i ⟨s.key, s.cfg, s.isOpen, true⟩) st.active
      st.nextId).streams i = some ⟨s.key, s.cfg, s.isOpen, true⟩ := by
    simp [setStream]
  rw [closeWs_shape hs1 (by dsimp only; rw [ho])]
  dsimp only
  rw [setStream_setStream]

/-! ## Sample configurations used in the concrete instantiations -/

def sampleSL : StopLossOrder := ⟨"u", "T", Side.yes, 1/2, 10⟩

def sampleAlert : PriceAlert := ⟨"u", "T", Side.yes, 1/2, 10⟩

def samplePA : PositionAlert := ⟨"u", "T", Side.yes, 1/2, 1/10, 5⟩

def prefixSL : StopLossOrder := ⟨"1234", "T", Side.yes, 1/2, 10⟩

def slTickMsg : WsMessage := ⟨"market_ticker", ⟨"T", some (45/100), none⟩⟩

def alertTickMsg : WsMessage := ⟨"market_ticker", ⟨"T", some (55/100), none⟩⟩

/-! ## The event-loop registry

The asynchronous model of the same managers. It refines the synchronous
registry with the socket lifecycle the `ws` library actually has:
`ws.close()` only moves a socket from OPEN to CLOSING; a CLOSING socket
still delivers `message` events; the `close` event fires on a later
event-loop turn (or spontaneously, for a remote close) and only then
runs the close handler, which unconditionally deletes the socket's key
from the map — even when that key is by now bound to a newer socket.
A fired message handler sets `hasExecuted` (stop-loss) synchronously,
starts the awaited side effect (counted in `fires`) and suspends; its
own `ws.close()`-and-delete runs only when the continuation resumes, so
further ticks for the same socket are processed in between. -/

/-- Lifecycle phase of a socket in the event-loop model. -/
inductive SockPhase
  | opened
  | closing
  | closed
deriving DecidableEq, Repr

/-- One socket in the event-loop model: its registration key and watcher
configuration, its phase, the handler's `hasExecuted` flag (never
consulted by the alert manager, which lacks the variable), whether a
fired handler's close-and-delete continuation is still pending, and how
many times the handler has fired (pipeline runs / notifications). -/
structure ASock (α : Type) where
  key : String
  cfg : α
  phase : SockPhase
  hasExecuted : Bool
  pendingClose : Bool
  fires : Nat
deriving DecidableEq, Repr

/-- Event-loop registry state: socket ledger by creation index, the
`Map` of bindings, next fresh index. -/
structure AState (α : Type) where
  streams : Nat → Option (ASock α)
  active : List (String × Nat)
  nextId : Nat

/-- The empty event-loop registry. -/
def initA (α : Type) : AState α := ⟨fun _ => none, [], 0⟩

/-- Point update of the socket ledger. -/
def setStreamA {α : Type} (streams : Nat → Option (ASock α)) (i : Nat)
    (s : ASock α) : Nat → Option (ASock α) :=
  fun j => if j = i then some s else streams j

/-- `ws.close()`: initiate the closing handshake only — an OPEN socket
becomes CLOSING; the map is untouched and the close handler does not run
yet. No effect on a CLOSING or CLOSED socket. -/
def initiateClose {α : Type} (st : AState α) (i : Nat) : AState α :=
  match st.streams i with
  | none => st
  | some s =>
      if s.phase = SockPhase.opened then
        ⟨setStreamA st.streams i
           ⟨s.key, s.cfg, SockPhase.closing, s.hasExecuted, s.pendingClose,
            s.fires⟩,
         st.active, st.nextId⟩
      else st

/-- The socket's `close` event (stoploss-manager.ts lines 142-145 /
alert-manager.ts lines 133-136), arriving on a later turn after
`ws.close()` or spontaneously on remote close: the socket becomes CLOSED
and its handler deletes the socket's key from the map — deleting
whatever binding that key holds by now. -/
def closeEvtA {α : Type} (st : AState α) (i : Nat) : AState α :=
  match st.streams i with
  | none => st
  | some s =>
      if s.phase = SockPhase.closed then st
      else
        ⟨setStreamA st.streams i
           ⟨s.key, s.cfg, SockPhase.closed, s.hasExecuted, s.pendingClose,
            s.fires⟩,
         eraseKey st.active s.key, st.nextId⟩

/-- Create the fresh socket and `Map.set` it under the key (replacing a
live binding in place). -/
def registerA {α : Type} (st : AState α) (key : String) (cfg : α) : AState α :=
  ⟨setStreamA st.streams st.nextId
     ⟨key, cfg, SockPhase.opened, false, false, 0⟩,
   setKey st.active key st.nextId, st.nextId + 1⟩

/-- `startStopLoss` / `startAlert` in the event-loop model (lines 44-151
resp. 44-142): `close()` on the prior socket only initiates its
handshake; the new socket is then created and registered. The prior
socket's close handler has not run — it will fire later and delete the
key, which by then binds the new socket. -/
def startA {α : Type} (keyOf : α → String) (st : AState α) (cfg : α) :
    AState α :=
  match lookupKey st.active (keyOf cfg) with
  | some oldId => registerA (initiateClose st oldId) (keyOf cfg) cfg
  | none => registerA st (keyOf cfg) cfg

/-- `stopStopLoss` / `stopAlert` in the event-loop model (lines 361-372
resp. 294-305): initiate the close and delete the map entry, both
synchronously at the call site. -/
def stopA {α : Type} (st : AState α) (userId marketTicker side : String) :
    Bool × AState α :=
  match lookupKey st.active (userId ++ "-" ++ marketTicker ++ "-" ++ side) with
  | some i =>
      (true,
       ⟨(initiateClose st i).streams,
        eraseKey (initiateClose st i).active
          (userId ++ "-" ++ marketTicker ++ "-" ++ side),
        (initiateClose st i).nextId⟩)
  | none => (false, st)

/-- One `message` event in the event-loop model (lines 101-136 resp.
100-127): a socket that has not yet received its close event (OPEN or
CLOSING) runs the handler. On a fire the handler sets `hasExecuted`,
starts the awaited side effect (counted in `fires`) and suspends with
its close-and-delete pending; the map is untouched at this point. A
second triggering tick arriving before the resume re-enters the handler
(the stop-loss fire predicate then sees `hasExecuted = true`; the alert
fire predicate never consults it). -/
def tickA {α : Type} (firesOf : α → Bool → WsMessage → Bool) (st : AState α)
    (i : Nat) (m : WsMessage) : AState α :=
  match st.streams i with
  | none => st
  | some s =>
      if s.phase = SockPhase.closed then st
      else if firesOf s.cfg s.hasExecuted m then
        ⟨setStreamA st.streams i
           ⟨s.key, s.cfg, s.phase, true, true, s.fires + 1⟩,
         st.active, st.nextId⟩
      else st

/-- The fired handler's continuation after its await (stoploss-manager.ts
lines 130-131 / alert-manager.ts lines 121-122): `ws.close()` then
`Map.delete(key)`. -/
def resumeA {α : Type} (st : AState α) (i : Nat) : AState α :=
  match st.streams i with
  | none => st
  | some s =>
      if s.pendingClose then
        ⟨setStreamA st.streams i
           ⟨s.key, s.cfg,
            if s.phase = SockPhase.opened then SockPhase.closing else s.phase,
            s.hasExecuted, false, s.fires⟩,
         eraseKey st.active s.key, st.nextId⟩
      else st

/-- The body of the `stopAll` loop for one listed key in the event-loop
model. -/
def stopOneA {α : Type} (st : AState α) (k : String) : AState α :=
  match lookupKey st.active k with
  | some i =>
      ⟨(initiateClose st i).streams, eraseKey (initiateClose st i).active k,
       (initiateClose st i).nextId⟩
  | none => st

/-- `getActiveStopLosses` / `getActiveAlerts` in the event-loop model. -/
def listA {α : Type} (st : AState α) (userId : String) : List String :=
  (st.active.map Prod.fst).filter (fun k => jsStartsWith k userId)

/-- `stopAllStopLosses` / `stopAllAlerts` in the event-loop model. -/
def stopAllA {α : Type} (st : AState α) (userId : String) : Nat × AState α :=
  ((listA st userId).length, (listA st userId).foldl stopOneA st)

/-- Event-loop turns the registry reacts to. -/
inductive AOp (α : Type)
  | start (cfg : α)
  | stop (userId marketTicker side : String)
  | stopAll (userId : String)
  | tick (i : Nat) (m : WsMessage)
  | resume (i : Nat)
  | closeEvt (i : Nat)

/-- Event-loop registry transition. -/
def stepA {α : Type} (keyOf : α → String)
    (firesOf : α → Bool → WsMessage → Bool) (st : AState α) :
    AOp α → AState α
  | .start cfg => startA keyOf st cfg
  | .stop u t s => (stopA st u t s).2
  | .stopAll u => (stopAllA st u).2
  | .tick i m => tickA firesOf st i m
  | .resume i => resumeA st i
  | .closeEvt i => closeEvtA st i

/-- Run the event-loop registry from empty over a sequence of turns. -/
def runA {α : Type} (keyOf : α → String)
    (firesOf : α → Bool → WsMessage → Bool) (ops : List (AOp α)) : AState α :=
  ops.foldl (stepA keyOf firesOf) (initA α)

/-! ## Event-loop registry lemmas -/

theorem mem_keys_setKey :
    ∀ (m : List (String × Nat)) (k a : String) (v : Nat),
      a ∈ (setKey m k v).map Prod.fst → a = k ∨ a ∈ m.map Prod.fst := by
  intro m
  induction m with
  | nil =>
    intro k a v h
    simp only [setKey, List.map_cons, List.map_nil, List.mem_singleton] at h
    exact Or.inl h
  | cons e rest ih =>
    intro k a v h
    obtain ⟨k1, v1⟩ := e
    simp only [setKey] at h
    split at h
    · rw [List.map_cons, List.mem_cons] at h
      rcases h with h | h
      · exact Or.inl h
      · exact Or.inr (by rw [List.map_cons]; exact List.mem_cons_of_mem _ h)
    · rw [List.map_cons, List.mem_cons] at h
      rcases h with h | h
      · exact Or.inr (by rw [List.map_cons]; exact List.mem_cons.mpr (Or.inl h))
      · rcases ih k a v h with h | h
        · exact Or.inl h
        · exact Or.inr (by rw [List.map_cons]; exact List.mem_cons_of_mem _ h)

theorem setKey_keys_nodup :
    ∀ (m : List (String × Nat)) (k : String) (v : Nat),
      (m.map Prod.fst).Nodup → ((setKey m k v).map Prod.fst).Nodup := by
  intro m
  induction m with
  | nil =>
    intro k v _
    simp [setKey]
  | cons e rest ih =>
    intro k v h
    obtain ⟨k1, v1⟩ := e
    rw [List.map_cons, List.nodup_cons] at h
    simp only [setKey]
    split
    · rename_i hk
      rw [List.map_cons, List.nodup_cons]
      exact ⟨hk ▸ h.1, h.2⟩
    · rename_i hk
      rw [List.map_cons, List.nodup_cons]
      refine ⟨?_, ih k v h.2⟩
      intro hmem
      rcases mem_keys_setKey rest k k1 v hmem with hq | hq
      · exact hk hq
      · exact h.1 hq

theorem foldl_pres {σ β : Type} (P : σ → Prop) (f : σ → β → σ)
    (hf : ∀ st b, P st → P (f st b)) :
    ∀ (l : List β) (st : σ), P st → P (l.foldl f st)
  | [], _, h => h
  | b :: l, st, h => foldl_pres P f hf l (f st b) (hf st b h)

/-- Event-loop registry well-formedness: map keys are distinct (the map
binds at most one socket per key) and socket indices stay below
`nextId`. -/
structure AInv {α : Type} (st : AState α) : Prop where
  nodupKeys : (st.active.map Prod.fst).Nodup
  bound : ∀ i, st.nextId ≤ i → st.streams i = none

theorem aInv_init (α : Type) : AInv (initA α) := by
  constructor
  · exact List.nodup_nil
  · intro i _
    rfl

theorem lt_nextIdA {α : Type} {st : AState α} (h : AInv st) {i : Nat}
    {s : ASock α} (hs : st.streams i = some s) : i < st.nextId := by
  by_contra hcon
  push_neg at hcon
  rw [h.bound i hcon] at hs
  cases hs

theorem aInv_initiateClose {α : Type} {st : AState α} (h : AInv st) (i : Nat) :
    AInv (initiateClose st i) := by
  unfold initiateClose
  cases hs : st.streams i with
  | none => exact h
  | some s =>
    dsimp only
    by_cases hp : s.phase = SockPhase.opened
    · rw [if_pos hp]
      constructor
      · exact h.nodupKeys
      · intro j hj
        dsimp only at hj ⊢
        have hlt := lt_nextIdA h hs
        have hne : j ≠ i := by omega
        simp only [setStreamA, hne, if_false]
        exact h.bound j hj
    · rw [if_neg hp]
      exact h

theorem aInv_closeEvtA {α : Type} {st : AState α} (h : AInv st) (i : Nat) :
    AInv (closeEvtA st i) := by
  unfold closeEvtA
  cases hs : st.streams i with
  | none => exact h
  | some s =>
    dsimp only
    by_cases hp : s.phase = SockPhase.closed
    · rw [if_pos hp]
      exact h
    · rw [if_neg hp]
      constructor
      · exact h.nodupKeys.sublist (eraseKey_keys_sublist _ _)
      · intro j hj
        dsimp only at hj ⊢
        have hlt := lt_nextIdA h hs
        have hne : j ≠ i := by omega
        simp only [setStreamA, hne, if_false]
        exact h.bound j hj

theorem aInv_registerA {α : Type} {st : AState α} (h : AInv st) (key : String)
    (cfg : α) : AInv (registerA st key cfg) := by
  unfold registerA
  constructor
  · exact setKey_keys_nodup _ _ _ h.nodupKeys
  · intro j hj
    dsimp only at hj ⊢
    have hne : j ≠ st.nextId := by omega
    simp only [setStreamA, hne, if_false]
    exact h.bound j (by omega)

theorem aInv_startA {α : Type} (keyOf : α → String) {st : AState α}
    (h : AInv st) (cfg : α) : AInv (startA keyOf st cfg) := by
  unfold startA
  cases lookupKey st.active (keyOf cfg) with
  | none => exact aInv_registerA h _ cfg
  | some oldId => exact aInv_registerA (aInv_initiateClose h oldId) _ cfg

theorem aInv_stopA {α : Type} {st : AState α} (h : AInv st)
    (u t sd : String) : AInv (stopA st u t sd).2 := by
  unfold stopA
  cases lookupKey st.active (u ++ "-" ++ t ++ "-" ++ sd) with
  | none => exact h
  | some i =>
    have h1 := aInv_initiateClose h i
    constructor
    · exact h1.nodupKeys.sublist (eraseKey_keys_sublist _ _)
    · exact h1.bound

theorem aInv_stopOneA {α : Type} {st : AState α} (h : AInv st) (k : String) :
    AInv (stopOneA st k) := by
  unfold stopOneA
  cases lookupKey st.active k with
  | none => exact h
  | some i =>
    have h1 := aInv_initiateClose h i
    constructor
    · exact h1.nodupKeys.sublist (eraseKey_keys_sublist _ _)
    · exact h1.bound

theorem aInv_tickA {α : Type} (firesOf : α → Bool → WsMessage → Bool)
    {st : AState α} (h : AInv st) (i : Nat) (m : WsMessage) :
    AInv (tickA firesOf st i m) := by
  unfold tickA
  cases hs : st.streams i with
  | none => exact h
  | some s =>
    dsimp only
    by_cases hp : s.phase = SockPhase.closed
    · rw [if_pos hp]
      exact h
    · rw [if_neg hp]
      by_cases hf : firesOf s.cfg s.hasExecuted m = true
      · rw [if_pos hf]
        constructor
        · exact h.nodupKeys
        · intro j hj
          dsimp only at hj ⊢
          have hlt := lt_nextIdA h hs
          have hne : j ≠ i := by omega
          simp only [setStreamA, hne, if_false]
          exact h.bound j hj
      · rw [if_neg hf]
        exact h

theorem aInv_resumeA {α : Type} {st : AState α} (h : AInv st) (i : Nat) :
    AInv (resumeA st i) := by
  unfold resumeA
  cases hs : st.streams i with
  | none => exact h
  | some s =>
    dsimp only
    by_cases hp : s.pendingClose = true
    · rw [if_pos hp]
      constructor
      · exact h.nodupKeys.sublist (eraseKey_keys_sublist _ _)
      · intro j hj
        dsimp only at hj ⊢
        have hlt := lt_nextIdA h hs
        have hne : j ≠ i := by omega
        simp only [setStreamA, hne, if_false]
        exact h.bound j hj
    · rw [if_neg hp]
      exact h

theorem aInv_stepA {α : Type} (keyOf : α → String)
    (firesOf : α → Bool → WsMessage → Bool) {st : AState α} (h : AInv st)
    (op : AOp α) : AInv (stepA keyOf firesOf st op) := by
  cases op with
  | start cfg => exact aInv_startA keyOf h cfg
  | stop u t sd => exact aInv_stopA h u t sd
  | stopAll u =>
    show AInv ((listA st u).foldl stopOneA st)
    exact foldl_pres AInv stopOneA (fun st1 k h1 => aInv_stopOneA h1 k)
      (listA st u) st h
  | tick i m => exact aInv_tickA firesOf h i m
  | resume i => exact aInv_resumeA h i
  | closeEvt i => exact aInv_closeEvtA h i

theorem aInv_runA {α : Type} (keyOf : α → String)
    (firesOf : α → Bool → WsMessage → Bool) (ops : List (AOp α)) :
    AInv (runA keyOf firesOf ops) := by
  unfold runA
  exact foldl_pres AInv (stepA keyOf firesOf)
    (fun st1 op h1 => aInv_stepA keyOf firesOf h1 op) ops (initA α)
    (aInv_init α)

theorem startA_supersede {α : Type} (keyOf : α → String) {st : AState α}
    (h : AInv st) {cfg : α} {oldId : Nat} {s : ASock α}
    (hl : lookupKey st.active (keyOf cfg) = some oldId)
    (hs : st.streams oldId = some s) (hp : s.phase = SockPhase.opened) :
    (initiateClose st oldId).streams oldId =
      some ⟨s.key, s.cfg, SockPhase.closing, s.hasExecuted, s.pendingClose,
        s.fires⟩ ∧
    (startA keyOf st cfg).streams oldId =
      some ⟨s.key, s.cfg, SockPhase.closing, s.hasExecuted, s.pendingClose,
        s.fires⟩ := by
  have hshape : initiateClose st oldId =
      ⟨setStreamA st.streams oldId
         ⟨s.key, s.cfg, SockPhase.closing, s.hasExecuted, s.pendingClose,
          s.fires⟩,
       st.active, st.nextId⟩ := by
    unfold initiateClose
    rw [hs]
    dsimp only
    rw [if_pos hp]
  constructor
  · rw [hshape]
    dsimp only
    simp [setStreamA]
  · unfold startA
    rw [hl]
    dsimp only
    unfold registerA
    rw [hshape]
    dsimp only
    have hlt := lt_nextIdA h hs
    have hne : oldId ≠ st.nextId := by omega
    simp [setStreamA, hne]

theorem tickA_fires_at {α : Type} (firesOf : α → Bool → WsMessage → Bool)
    {st : AState α} {i : Nat} {s : ASock α} (hs : st.streams i = some s)
    (hp : s.phase ≠ SockPhase.closed) {m : WsMessage}
    (hf : firesOf s.cfg s.hasExecuted m = true) :
    (tickA firesOf st i m).streams i =
      some ⟨s.key, s.cfg, s.phase, true, true, s.fires + 1⟩ ∧
    (∀ j, j ≠ i → (tickA firesOf st i m).streams j = st.streams j) ∧
    (tickA firesOf st i m).active = st.active := by
  have hshape : tickA firesOf st i m =
      ⟨setStreamA st.streams i ⟨s.key, s.cfg, s.phase, true, true, s.fires + 1⟩,
       st.active, st.nextId⟩ := by
    unfold tickA
    rw [hs]
    dsimp only
    rw [if_neg hp, if_pos hf]
  refine ⟨?_, ?_, ?_⟩
  · rw [hshape]
    dsimp only
    simp [setStreamA]
  · intro j hj
    rw [hshape]
    dsimp only
    simp [setStreamA, hj]
  · rw [hshape]

theorem tickA_no_fire {α : Type} (firesOf : α → Bool → WsMessage → Bool)
    {st : AState α} {i : Nat} {s : ASock α} (hs : st.streams i = some s)
    (hp : s.phase ≠ SockPhase.closed) {m : WsMessage}
    (hf : firesOf s.cfg s.hasExecuted m = false) :
    tickA firesOf st i m = st := by
  unfold tickA
  rw [hs]
  dsimp only
  rw [if_neg hp, if_neg (by simp [hf])]

/-! ## Claim theorems -/

/-- C3: for every stop-loss watcher and every tick whose watched-side
price `p` is present and nonzero, the evaluator decides ARMED if and only
if `p ≤ basePrice * (1 - dropPercentage / 100)`; in particular exact
equality triggers. -/
theorem C3_stoploss_trigger_iff (sl : StopLossOrder) (d : MarketUpdate) (p : ℚ)
    (hp : sidePrice sl.side d = some p) (hp0 : p ≠ 0) :
    slEvaluate sl d = Decision.armed ↔
      p ≤ sl.basePrice * (1 - sl.dropPercentage / 100) := by
  unfold slEvaluate slTriggerPrice
  rw [hp]
  dsimp only
  rw [if_neg hp0]
  by_cases hle : p ≤ sl.basePrice * (1 - sl.dropPercentage / 100)
  · rw [if_pos hle]
    exact iff_of_true rfl hle
  · rw [if_neg hle]
    exact iff_of_false (by simp) hle

/-- C3 witness: with basePrice 0.50 and dropPercentage 10, the side price
0.45 arms the stop-loss and 0.450001 does not. -/
theorem C3_stoploss_trigger_iff_witness :
    slEvaluate sampleSL ⟨"T", some (45/100), none⟩ = Decision.armed ∧
    slEvaluate sampleSL ⟨"T", some (450001/1000000), none⟩ ≠ Decision.armed := by
  constructor
  · exact (C3_stoploss_trigger_iff sampleSL ⟨"T", some (45/100), none⟩ (45/100)
      rfl (by norm_num)).mpr (by norm_num [sampleSL])
  · intro hcon
    have hc := (C3_stoploss_trigger_iff sampleSL ⟨"T", some (450001/1000000), none⟩
      (450001/1000000) rfl (by norm_num)).mp hcon
    norm_num [sampleSL] at hc

/-- C4: for every alert watcher with positive basePrice and nonnegative
threshold percent and every tick whose watched-side price `p` is present,
the evaluator decides ARMED if and only if
`basePrice * (1 + percentageThreshold / 100) ≤ p`; exact equality
triggers. -/
theorem C4_alert_trigger_iff (a : PriceAlert) (d : MarketUpdate) (p : ℚ)
    (hb : 0 < a.basePrice) (ht : 0 ≤ a.percentageThreshold)
    (hp : sidePrice a.side d = some p) :
    alertEvaluate a d = Decision.armed ↔
      a.basePrice * (1 + a.percentageThreshold / 100) ≤ p := by
  have hpos : 0 < a.basePrice * (1 + a.percentageThreshold / 100) :=
    mul_pos hb (by linarith)
  unfold alertEvaluate alertTriggerPrice
  rw [hp]
  dsimp only
  by_cases hp0 : p = 0
  · rw [if_pos hp0]
    refine iff_of_false (by simp) ?_
    rw [hp0]
    exact not_le.mpr hpos
  · rw [if_neg hp0]
    by_cases hle : a.basePrice * (1 + a.percentageThreshold / 100) ≤ p
    · rw [if_pos hle]
      exact iff_of_true rfl hle
    · rw [if_neg hle]
      exact iff_of_false (by simp) hle

/-- C4 witness: with basePrice 0.50 and threshold percent 10, the side
price 0.55 arms the alert and 0.549999 does not. -/
theorem C4_alert_trigger_iff_witness :
    alertEvaluate sampleAlert ⟨"T", some (55/100), none⟩ = Decision.armed ∧
    alertEvaluate sampleAlert ⟨"T", some (549999/1000000), none⟩ ≠ Decision.armed := by
  constructor
  · exact (C4_alert_trigger_iff sampleAlert ⟨"T", some (55/100), none⟩ (55/100)
      (by norm_num [sampleAlert]) (by norm_num [sampleAlert]) rfl).mpr
      (by norm_num [sampleAlert])
  · intro hcon
    have hc := (C4_alert_trigger_iff sampleAlert ⟨"T", some (549999/1000000), none⟩
      (549999/1000000) (by norm_num [sampleAlert]) (by norm_num [sampleAlert])
      rfl).mp hcon
    norm_num [sampleAlert] at hc

/-- C5: a tick whose watched-side price is absent or zero is ignored by
both evaluators, never makes a handler fire, and leaves the handler state
unchanged: an absent price is never read as the number 0. -/
theorem C5_absent_or_zero_ignored :
    (∀ (sl : StopLossOrder) (d : MarketUpdate),
        sidePrice sl.side d = none ∨ sidePrice sl.side d = some 0 →
        slEvaluate sl d = Decision.ignore) ∧
    (∀ (a : PriceAlert) (d : MarketUpdate),
        sidePrice a.side d = none ∨ sidePrice a.side d = some 0 →
        alertEvaluate a d = Decision.ignore) ∧
    (∀ (sl : StopLossOrder) (hE : Bool) (m : WsMessage),
        sidePrice sl.side m.data = none ∨ sidePrice sl.side m.data = some 0 →
        slFires sl hE m = false) ∧
    (∀ (sl : StopLossOrder) (st : TickState) (m : WsMessage),
        sidePrice sl.side m.data = none ∨ sidePrice sl.side m.data = some 0 →
        slHandle sl st m = st) ∧
    (∀ (a : PriceAlert) (st : TickState) (m : WsMessage),
        sidePrice a.side m.data = none ∨ sidePrice a.side m.data = some 0 →
        alertHandle a st m = st) := by
  have hsl : ∀ (sl : StopLossOrder) (d : MarketUpdate),
      sidePrice sl.side d = none ∨ sidePrice sl.side d = some 0 →
      slEvaluate sl d = Decision.ignore := by
    intro sl d h
    unfold slEvaluate
    rcases h with h | h <;> simp [h]
  have hal : ∀ (a : PriceAlert) (d : MarketUpdate),
      sidePrice a.side d = none ∨ sidePrice a.side d = some 0 →
      alertEvaluate a d = Decision.ignore := by
    intro a d h
    unfold alertEvaluate
    rcases h with h | h <;> simp [h]
  have hslf : ∀ (sl : StopLossOrder) (hE : Bool) (m : WsMessage),
      sidePrice sl.side m.data = none ∨ sidePrice sl.side m.data = some 0 →
      slFires sl hE m = false := by
    intro sl hE m h
    unfold slFires
    rw [hsl sl m.data h]
    simp
  have half : ∀ (a : PriceAlert) (m : WsMessage),
      sidePrice a.side m.data = none ∨ sidePrice a.side m.data = some 0 →
      alertFires a m = false := by
    intro a m h
    unfold alertFires
    rw [hal a m.data h]
    simp
  refine ⟨hsl, hal, hslf, ?_, ?_⟩
  · intro sl st m h
    unfold slHandle
    rw [hslf sl st.hasExecuted m h]
    simp
  · intro a st m h
    unfold alertHandle
    rw [half a m h]
    simp

/-- C5 witness: a market-ticker message for the watched ticker carrying
no yes-side price leaves both handlers' states unchanged. -/
theorem C5_absent_or_zero_ignored_witness :
    slHandle sampleSL initTickState ⟨"market_ticker", ⟨"T", none, none⟩⟩ =
      initTickState ∧
    alertHandle sampleAlert initTickState
      ⟨"market_ticker", ⟨"T", some 0, none⟩⟩ = initTickState := by
  constructor
  · exact C5_absent_or_zero_ignored.2.2.2.1 sampleSL initTickState
      ⟨"market_ticker", ⟨"T", none, none⟩⟩ (Or.inl rfl)
  · exact C5_absent_or_zero_ignored.2.2.2.2 sampleAlert initTickState
      ⟨"market_ticker", ⟨"T", some 0, none⟩⟩ (Or.inr rfl)

/-- C6: when the fetched positions yield no matching entry or a
nonpositive size (the code's computed quantity is then `≤ 0`), the
pipeline terminates in NO_POSITION, sends the single "Position not found"
notification to the owner, and never attempts order submission. -/
theorem C6_no_position (sl : StopLossOrder) (ps : Option (List KPosition))
    (submit : SubmitOutcome) (h : positionQuantity ps sl.marketTicker ≤ 0) :
    executeSellOrder sl (FetchOutcome.success ps) submit =
      ⟨Terminal.noPosition, [⟨sl.userId, some "Position not found", none⟩],
       false⟩ := by
  unfold executeSellOrder
  dsimp only
  rw [if_pos h]

/-- C6 witness: a positions response with no matching entry reaches
NO_POSITION without submitting an order. -/
theorem C6_no_position_witness :
    executeSellOrder sampleSL (FetchOutcome.success (some []))
        (SubmitOutcome.failure "x") =
      ⟨Terminal.noPosition, [⟨"u", some "Position not found", none⟩], false⟩ :=
  C6_no_position sampleSL (some []) (SubmitOutcome.failure "x")
    (by norm_num [positionQuantity])

/-- C7: every pipeline run sends exactly one notification, addressed to
the owning user; order-submission failure yields the ORDER_FAILED
terminal whose notification carries the failure reason; and on any fired
tick the watcher is removed from the registry (its key is unbound and its
socket closed) regardless of the pipeline outcome. -/
theorem C7_one_notification_and_removal :
    (∀ (sl : StopLossOrder) (fetch : FetchOutcome) (submit : SubmitOutcome),
        (executeSellOrder sl fetch submit).notifications.length = 1 ∧
        ∀ n ∈ (executeSellOrder sl fetch submit).notifications,
          n.userId = sl.userId) ∧
    (∀ (sl : StopLossOrder) (ps : Option (List KPosition)) (msg : String),
        0 < positionQuantity ps sl.marketTicker →
        executeSellOrder sl (FetchOutcome.success ps)
            (SubmitOutcome.failure msg) =
          ⟨Terminal.orderFailed msg, [⟨sl.userId, some msg, none⟩], true⟩) ∧
    (∀ (α : Type) (keyOf : α → String) (firesOf : α → Bool → WsMessage → Bool)
        (ops : List (RegOp α)) (i : Nat) (m : WsMessage) (s : RegStream α),
        (runOps keyOf firesOf ops).streams i = some s → s.isOpen = true →
        firesOf s.cfg s.hasExecuted m = true →
        lookupKey (deliverTick firesOf (runOps keyOf firesOf ops) i m).active
            s.key = none ∧
        (deliverTick firesOf (runOps keyOf firesOf ops) i m).streams i =
          some ⟨s.key, s.cfg, false, true⟩) := by
  refine ⟨?_, ?_, ?_⟩
  · intro sl fetch submit
    cases fetch with
    | failure msg =>
      refine ⟨rfl, ?_⟩
      intro n hn
      simp only [executeSellOrder, List.mem_singleton] at hn
      rw [hn]
    | success ps =>
      unfold executeSellOrder
      dsimp only
      by_cases hq : positionQuantity ps sl.marketTicker ≤ 0
      · rw [if_pos hq]
        refine ⟨rfl, ?_⟩
        intro n hn
        rw [List.mem_singleton] at hn
        rw [hn]
      · rw [if_neg hq]
        cases submit with
        | failure msg =>
          refine ⟨rfl, ?_⟩
          intro n hn
          rw [List.mem_singleton] at hn
          rw [hn]
        | success ord =>
          refine ⟨rfl, ?_⟩
          intro n hn
          rw [List.mem_singleton] at hn
          rw [hn]
  · intro sl ps msg hq
    unfold executeSellOrder
    dsimp only
    rw [if_neg (not_le.mpr hq)]
  · intro α keyOf firesOf ops i m s hs ho hf
    rw [deliverTick_fires firesOf hs ho hf]
    exact ⟨lookupKey_eraseKey_self _ _, by simp [setStream]⟩

/-- C7 witness: the three guarantees at concrete inputs — a failed fetch
still produces one notification, a rejected order yields ORDER_FAILED
carrying the reason, and a fired tick unbinds the watcher's key. -/
theorem C7_one_notification_and_removal_witness :
    (executeSellOrder sampleSL (FetchOutcome.failure "boom")
        (SubmitOutcome.failure "x")).notifications.length = 1 ∧
    executeSellOrder sampleSL
        (FetchOutcome.success (some [⟨"T", some 5⟩]))
        (SubmitOutcome.failure "rejected") =
      ⟨Terminal.orderFailed "rejected", [⟨"u", some "rejected", none⟩], true⟩ ∧
    lookupKey
        (deliverTick slFiresFn (runOps slKey slFiresFn [RegOp.start sampleSL])
          0 slTickMsg).active (slKey sampleSL) = none := by
  have hq : 0 < positionQuantity (some [⟨"T", some 5⟩]) sampleSL.marketTicker := by
    norm_num [positionQuantity, sampleSL]
  have hf : slFiresFn sampleSL false slTickMsg = true := by
    norm_num [slFiresFn, slFires, slEvaluate, sidePrice, slTriggerPrice,
      sampleSL, slTickMsg]
  exact ⟨(C7_one_notification_and_removal.1 sampleSL (FetchOutcome.failure "boom")
      (SubmitOutcome.failure "x")).1,
    C7_one_notification_and_removal.2.1 sampleSL (some [⟨"T", some 5⟩])
      "rejected" hq,
    (C7_one_notification_and_removal.2.2 StopLossOrder slKey slFiresFn
      [RegOp.start sampleSL] 0 slTickMsg ⟨slKey sampleSL, sampleSL, true, false⟩
      rfl rfl hf).1⟩

theorem eraseKey_eraseKey (m : List (String × Nat)) (k : String) :
    eraseKey (eraseKey m k) k = eraseKey m k :=
  eraseKey_eq_self (lookupKey_eq_none_iff.mp (lookupKey_eraseKey_self m k))

theorem stopWatch_found {α : Type} {st : RegState α} (h : RegInv st)
    {u t sd : String} {i : Nat}
    (hl : lookupKey st.active (u ++ "-" ++ t ++ "-" ++ sd) = some i) :
    ∃ s, st.streams i = some s ∧ s.isOpen = true ∧
      s.key = u ++ "-" ++ t ++ "-" ++ sd ∧
      stopWatch st u t sd =
        (true, ⟨setStream st.streams i ⟨s.key, s.cfg, false, s.hasExecuted⟩,
                eraseKey st.active s.key, st.nextId⟩) := by
  obtain ⟨s, hs, hk, ho⟩ := h.activeOpen _ i (lookupKey_some_mem hl)
  refine ⟨s, hs, ho, hk, ?_⟩
  unfold stopWatch
  rw [hl]
  dsimp only
  rw [closeWs_shape hs ho]
  unfold removeKey
  dsimp only
  rw [← hk, eraseKey_eraseKey]

/-- C8: stopping a bound key returns true, closes that key's socket and
unbinds the key (it also vanishes from the user's watch list); a second
stop on the same key is a no-op returning false, as is a stop on a key
that was never bound. -/
theorem C8_stop_returns_and_removes :
    (∀ (α : Type) (keyOf : α → String) (firesOf : α → Bool → WsMessage → Bool)
        (ops : List (RegOp α)) (u t sd : String) (i : Nat),
        lookupKey (runOps keyOf firesOf ops).active
            (u ++ "-" ++ t ++ "-" ++ sd) = some i →
        (stopWatch (runOps keyOf firesOf ops) u t sd).1 = true ∧
        (∃ s, (runOps keyOf firesOf ops).streams i = some s ∧ s.isOpen = true ∧
          (stopWatch (runOps keyOf firesOf ops) u t sd).2.streams i =
            some ⟨s.key, s.cfg, false, s.hasExecuted⟩) ∧
        lookupKey (stopWatch (runOps keyOf firesOf ops) u t sd).2.active
            (u ++ "-" ++ t ++ "-" ++ sd) = none ∧
        (u ++ "-" ++ t ++ "-" ++ sd) ∉
          listWatches (stopWatch (runOps keyOf firesOf ops) u t sd).2 u ∧
        stopWatch (stopWatch (runOps keyOf firesOf ops) u t sd).2 u t sd =
          (false, (stopWatch (runOps keyOf firesOf ops) u t sd).2)) ∧
    (∀ (α : Type) (keyOf : α → String) (firesOf : α → Bool → WsMessage → Bool)
        (ops : List (RegOp α)) (u t sd : String),
        lookupKey (runOps keyOf firesOf ops).active
            (u ++ "-" ++ t ++ "-" ++ sd) = none →
        stopWatch (runOps keyOf firesOf ops) u t sd =
          (false, runOps keyOf firesOf ops)) := by
  constructor
  · intro α keyOf firesOf ops u t sd i hl
    obtain ⟨s, hs, ho, hk, heq⟩ :=
      stopWatch_found (regInv_runOps keyOf firesOf ops) hl
    have hnone : lookupKey (stopWatch (runOps keyOf firesOf ops) u t sd).2.active
        (u ++ "-" ++ t ++ "-" ++ sd) = none := by
      rw [heq]
      dsimp only
      rw [← hk]
      exact lookupKey_eraseKey_self _ _
    refine ⟨by rw [heq], ⟨s, hs, ho, ?_⟩, hnone, ?_, ?_⟩
    · rw [heq]
      dsimp only
      simp [setStream]
    · intro hmem
      unfold listWatches at hmem
      exact (lookupKey_eq_none_iff.mp hnone) (List.mem_filter.mp hmem).1
    · generalize hst2 : (stopWatch (runOps keyOf firesOf ops) u t sd).2 = st2 at hnone ⊢
      unfold stopWatch
      rw [hnone]
  · intro α keyOf firesOf ops u t sd hl
    unfold stopWatch
    rw [hl]

/-- C8 witness: stopping the one started watcher returns true, stopping
an unbound key returns false leaving the state untouched. -/
theorem C8_stop_returns_and_removes_witness :
    (stopWatch (runOps slKey slFiresFn [RegOp.start sampleSL]) "u" "T" "yes").1 =
      true ∧
    stopWatch (runOps slKey slFiresFn [RegOp.start sampleSL]) "v" "T" "yes" =
      (false, runOps slKey slFiresFn [RegOp.start sampleSL]) :=
  ⟨(C8_stop_returns_and_removes.1 StopLossOrder slKey slFiresFn
      [RegOp.start sampleSL] "u" "T" "yes" 0 rfl).1,
   C8_stop_returns_and_removes.2 StopLossOrder slKey slFiresFn
     [RegOp.start sampleSL] "v" "T" "yes" rfl⟩

/-- C1 counterexample: in `websocket-alert-manager.ts`, calling
`startPositionAlert` for a key that already has an active watcher does
NOT close the prior watcher's stream and register a new one: the prior
socket is still open afterwards and no new socket was created
(`nextId` still 1), refuting the claimed supersede behaviour. -/
theorem C1_duplicate_start_counterexample :
    (startPositionAlert (startPositionAlert (initReg PositionAlert) samplePA)
        samplePA).streams 0 = some ⟨paKey samplePA, samplePA, true, false⟩ ∧
    (startPositionAlert (startPositionAlert (initReg PositionAlert) samplePA)
        samplePA).nextId = 1 :=
  ⟨rfl, rfl⟩

/-- C10: listing and stop-all match keys by `startsWith(userId)`, so user
"123" (who owns nothing) sees and stops user "1234"'s watcher: the list
for "123" equals the singleton key "1234-T-yes" (identical to the list
for "1234"), and stop-all for "123" closes and unbinds that watcher. -/
theorem C10_userid_prefix_leak :
    listWatches (runOps slKey slFiresFn [RegOp.start prefixSL]) "123" =
      ["1234-T-yes"] ∧
    listWatches (runOps slKey slFiresFn [RegOp.start prefixSL]) "123" =
      listWatches (runOps slKey slFiresFn [RegOp.start prefixSL]) "1234" ∧
    (stopAllWatches (runOps slKey slFiresFn [RegOp.start prefixSL]) "123").1 =
      1 ∧
    lookupKey (stopAllWatches (runOps slKey slFiresFn [RegOp.start prefixSL])
        "123").2.active "1234-T-yes" = none ∧
    (stopAllWatches (runOps slKey slFiresFn [RegOp.start prefixSL])
        "123").2.streams 0 = some ⟨"1234-T-yes", prefixSL, false, false⟩ :=
  ⟨rfl, rfl, rfl, rfl, rfl⟩

/-- C2: evaluation of the alert manager at the failing input. A fresh
alert watcher is fed two consecutive triggering ticks; the second is
processed before the first fire's awaited `sendAlert` resumes and closes
the socket. The handler has no `hasExecuted` guard, so the watcher
notifies TWICE (fires = 2, close still pending), violating the claimed
single-fire invariant. The stop-loss handler on the same pattern fires
exactly once: it sets `hasExecuted` synchronously at the first fire. -/
theorem C2_alert_double_fire :
    (runA alertKey alertFiresFn
        [AOp.start sampleAlert, AOp.tick 0 alertTickMsg,
         AOp.tick 0 alertTickMsg]).streams 0 =
      some ⟨alertKey sampleAlert, sampleAlert, SockPhase.opened, true, true,
        2⟩ ∧
    (runA slKey slFiresFn
        [AOp.start sampleSL, AOp.tick 0 slTickMsg,
         AOp.tick 0 slTickMsg]).streams 0 =
      some ⟨slKey sampleSL, sampleSL, SockPhase.opened, true, true, 1⟩ := by
  have haf : alertFires sampleAlert alertTickMsg = true := by
    norm_num [alertFires, alertEvaluate, sidePrice, alertTriggerPrice,
      sampleAlert, alertTickMsg]
  have hsf : slFires sampleSL false slTickMsg = true := by
    norm_num [slFires, slEvaluate, sidePrice, slTriggerPrice, sampleSL,
      slTickMsg]
  have hsg : slFires sampleSL true slTickMsg = false := by
    simp [slFires]
  constructor
  · have h1 : (runA alertKey alertFiresFn [AOp.start sampleAlert]).streams 0 =
        some ⟨alertKey sampleAlert, sampleAlert, SockPhase.opened, false,
          false, 0⟩ := rfl
    have h2 := tickA_fires_at alertFiresFn h1 (by decide) haf
    have h3 := tickA_fires_at alertFiresFn h2.1 (by decide) haf
    exact h3.1
  · have g1 : (runA slKey slFiresFn [AOp.start sampleSL]).streams 0 =
        some ⟨slKey sampleSL, sampleSL, SockPhase.opened, false, false, 0⟩ :=
      rfl
    have g2 := tickA_fires_at slFiresFn g1 (by decide) hsf
    have g3 := tickA_no_fire slFiresFn g2.1 (by decide) hsg
    show (tickA slFiresFn (tickA slFiresFn
        (runA slKey slFiresFn [AOp.start sampleSL]) 0 slTickMsg)
        0 slTickMsg).streams 0 = _
    rw [g3]
    exact g2.1

theorem slWindow_facts :
    (runA slKey slFiresFn [AOp.start sampleSL, AOp.start sampleSL]).streams 0 =
      some ⟨slKey sampleSL, sampleSL, SockPhase.closing, false, false, 0⟩ ∧
    (runA slKey slFiresFn [AOp.start sampleSL, AOp.start sampleSL]).streams 1 =
      some ⟨slKey sampleSL, sampleSL, SockPhase.opened, false, false, 0⟩ ∧
    (tickA slFiresFn (tickA slFiresFn
        (runA slKey slFiresFn [AOp.start sampleSL, AOp.start sampleSL])
        0 slTickMsg) 1 slTickMsg).streams 0 =
      some ⟨slKey sampleSL, sampleSL, SockPhase.closing, true, true, 1⟩ ∧
    (tickA slFiresFn (tickA slFiresFn
        (runA slKey slFiresFn [AOp.start sampleSL, AOp.start sampleSL])
        0 slTickMsg) 1 slTickMsg).streams 1 =
      some ⟨slKey sampleSL, sampleSL, SockPhase.opened, true, true, 1⟩ := by
  have hsf : slFires sampleSL false slTickMsg = true := by
    norm_num [slFires, slEvaluate, sidePrice, slTriggerPrice, sampleSL,
      slTickMsg]
  have h0 : (runA slKey slFiresFn
      [AOp.start sampleSL, AOp.start sampleSL]).streams 0 =
      some ⟨slKey sampleSL, sampleSL, SockPhase.closing, false, false, 0⟩ :=
    rfl
  have h1 : (runA slKey slFiresFn
      [AOp.start sampleSL, AOp.start sampleSL]).streams 1 =
      some ⟨slKey sampleSL, sampleSL, SockPhase.opened, false, false, 0⟩ :=
    rfl
  have t0 := tickA_fires_at slFiresFn h0 (by decide) hsf
  have h1b : (tickA slFiresFn
      (runA slKey slFiresFn [AOp.start sampleSL, AOp.start sampleSL])
      0 slTickMsg).streams 1 =
      some ⟨slKey sampleSL, sampleSL, SockPhase.opened, false, false, 0⟩ := by
    rw [t0.2.1 1 (by decide)]
    exact h1
  have t1 := tickA_fires_at slFiresFn h1b (by decide) hsf
  have h0b : (tickA slFiresFn (tickA slFiresFn
      (runA slKey slFiresFn [AOp.start sampleSL, AOp.start sampleSL])
      0 slTickMsg) 1 slTickMsg).streams 0 =
      some ⟨slKey sampleSL, sampleSL, SockPhase.closing, true, true, 1⟩ := by
    rw [t1.2.1 0 (by decide)]
    exact t0.1
  exact ⟨h0, h1, h0b, t1.1⟩

/-- C9 counterexample: after a supersede the prior stream is only
CLOSING and still delivers ticks; both it and its replacement carry the
same key and each fires its trigger on a subsequent tick — a reachable
state with two streams for one key simultaneously active and able to
fire, refuting the claimed absence of such a state. -/
theorem C9_closing_stream_still_fires_counterexample :
    (runA slKey slFiresFn [AOp.start sampleSL, AOp.start sampleSL]).streams 0 =
      some ⟨slKey sampleSL, sampleSL, SockPhase.closing, false, false, 0⟩ ∧
    (runA slKey slFiresFn [AOp.start sampleSL, AOp.start sampleSL]).streams 1 =
      some ⟨slKey sampleSL, sampleSL, SockPhase.opened, false, false, 0⟩ ∧
    (tickA slFiresFn (tickA slFiresFn
        (runA slKey slFiresFn [AOp.start sampleSL, AOp.start sampleSL])
        0 slTickMsg) 1 slTickMsg).streams 0 =
      some ⟨slKey sampleSL, sampleSL, SockPhase.closing, true, true, 1⟩ ∧
    (tickA slFiresFn (tickA slFiresFn
        (runA slKey slFiresFn [AOp.start sampleSL, AOp.start sampleSL])
        0 slTickMsg) 1 slTickMsg).streams 1 =
      some ⟨slKey sampleSL, sampleSL, SockPhase.opened, true, true, 1⟩ :=
  slWindow_facts

/-- C9 (amended): on a duplicate start the prior stream's close is
initiated (OPEN becomes CLOSING) before the replacement socket is
created and registered; but until its close event arrives the CLOSING
stream still delivers ticks and can fire, so a supersede opens a window
in which two streams for the same key are simultaneously able to fire —
exhibited by the concrete trace in which both the superseded stream and
its replacement fire. -/
theorem C9_close_initiated_but_fire_window :
    (∀ (α : Type) (keyOf : α → String) (firesOf : α → Bool → WsMessage → Bool)
        (ops : List (AOp α)) (cfg : α) (oldId : Nat) (s : ASock α),
        lookupKey (runA keyOf firesOf ops).active (keyOf cfg) = some oldId →
        (runA keyOf firesOf ops).streams oldId = some s →
        s.phase = SockPhase.opened →
        (initiateClose (runA keyOf firesOf ops) oldId).streams oldId =
          some ⟨s.key, s.cfg, SockPhase.closing, s.hasExecuted,
            s.pendingClose, s.fires⟩ ∧
        (startA keyOf (runA keyOf firesOf ops) cfg).streams oldId =
          some ⟨s.key, s.cfg, SockPhase.closing, s.hasExecuted,
            s.pendingClose, s.fires⟩) ∧
    ((runA slKey slFiresFn [AOp.start sampleSL, AOp.start sampleSL,
        AOp.tick 0 slTickMsg, AOp.tick 1 slTickMsg]).streams 0 =
      some ⟨slKey sampleSL, sampleSL, SockPhase.closing, true, true, 1⟩ ∧
     (runA slKey slFiresFn [AOp.start sampleSL, AOp.start sampleSL,
        AOp.tick 0 slTickMsg, AOp.tick 1 slTickMsg]).streams 1 =
      some ⟨slKey sampleSL, sampleSL, SockPhase.opened, true, true, 1⟩) := by
  constructor
  · intro α keyOf firesOf ops cfg oldId s hl hs hp
    exact startA_supersede keyOf (aInv_runA keyOf firesOf ops) hl hs hp
  · exact ⟨slWindow_facts.2.2.1, slWindow_facts.2.2.2⟩

/-- C9 witness: superseding the one started watcher leaves its socket
CLOSING in both the intermediate and the final state. -/
theorem C9_close_initiated_but_fire_window_witness :
    (initiateClose (runA slKey slFiresFn [AOp.start sampleSL]) 0).streams 0 =
      some ⟨slKey sampleSL, sampleSL, SockPhase.closing, false, false, 0⟩ ∧
    (startA slKey (runA slKey slFiresFn [AOp.start sampleSL])
        sampleSL).streams 0 =
      some ⟨slKey sampleSL, sampleSL, SockPhase.closing, false, false, 0⟩ :=
  C9_close_initiated_but_fire_window.1 StopLossOrder slKey slFiresFn
    [AOp.start sampleSL] sampleSL 0
    ⟨slKey sampleSL, sampleSL, SockPhase.opened, false, false, 0⟩ rfl rfl rfl

/-- C1 (amended): the registry map itself binds at most one socket per
key in every reachable event-loop state, and a start on a bound key
initiates close of the prior socket as it registers the replacement; but
uniqueness of OPEN watchers per key does not persist: the superseded
socket's deferred close handler deletes the key it shares with the
replacement, orphaning the still-open replacement, after which a further
start runs a second open watcher for the same key (concrete trace: two
OPEN sockets with the key, only the newer bound). `startPositionAlert`
instead refuses a duplicate start outright, keeping the prior watcher
unchanged. -/
theorem C1_binding_unique_replacement_orphaned :
    (∀ (α : Type) (keyOf : α → String) (firesOf : α → Bool → WsMessage → Bool)
        (ops : List (AOp α)),
        ((runA keyOf firesOf ops).active.map Prod.fst).Nodup) ∧
    (∀ (α : Type) (keyOf : α → String) (firesOf : α → Bool → WsMessage → Bool)
        (ops : List (AOp α)) (cfg : α) (oldId : Nat) (s : ASock α),
        lookupKey (runA keyOf firesOf ops).active (keyOf cfg) = some oldId →
        (runA keyOf firesOf ops).streams oldId = some s →
        s.phase = SockPhase.opened →
        (startA keyOf (runA keyOf firesOf ops) cfg).streams oldId =
          some ⟨s.key, s.cfg, SockPhase.closing, s.hasExecuted,
            s.pendingClose, s.fires⟩) ∧
    ((runA slKey slFiresFn [AOp.start sampleSL, AOp.start sampleSL,
        AOp.closeEvt 0, AOp.start sampleSL]).streams 1 =
      some ⟨slKey sampleSL, sampleSL, SockPhase.opened, false, false, 0⟩ ∧
     (runA slKey slFiresFn [AOp.start sampleSL, AOp.start sampleSL,
        AOp.closeEvt 0, AOp.start sampleSL]).streams 2 =
      some ⟨slKey sampleSL, sampleSL, SockPhase.opened, false, false, 0⟩ ∧
     lookupKey (runA slKey slFiresFn [AOp.start sampleSL, AOp.start sampleSL,
        AOp.closeEvt 0, AOp.start sampleSL]).active (slKey sampleSL) =
       some 2) ∧
    (∀ (st : RegState PositionAlert) (a : PositionAlert),
        (lookupKey st.active (paKey a)).isSome = true →
        startPositionAlert st a = st) := by
  refine ⟨?_, ?_, ⟨rfl, rfl, rfl⟩, ?_⟩
  · intro α keyOf firesOf ops
    exact (aInv_runA keyOf firesOf ops).nodupKeys
  · intro α keyOf firesOf ops cfg oldId s hl hs hp
    exact (startA_supersede keyOf (aInv_runA keyOf firesOf ops) hl hs hp).2
  · intro st a h
    unfold startPositionAlert
    rw [if_pos h]

/-- C1 witness: superseding the one started watcher marks its socket
CLOSING in the resulting state, and a duplicate `startPositionAlert`
returns the state unchanged. -/
theorem C1_binding_unique_replacement_orphaned_witness :
    (startA slKey (runA slKey slFiresFn [AOp.start sampleSL])
        sampleSL).streams 0 =
      some ⟨slKey sampleSL, sampleSL, SockPhase.closing, false, false, 0⟩ ∧
    startPositionAlert (startPositionAlert (initReg PositionAlert) samplePA)
        samplePA = startPositionAlert (initReg PositionAlert) samplePA :=
  ⟨C1_binding_unique_replacement_orphaned.2.1 StopLossOrder slKey slFiresFn
      [AOp.start sampleSL] sampleSL 0
      ⟨slKey sampleSL, sampleSL, SockPhase.opened, false, false, 0⟩ rfl rfl
      rfl,
   C1_binding_unique_replacement_orphaned.2.2.2
     (startPositionAlert (initReg PositionAlert) samplePA) samplePA rfl⟩

end KalshiSentinel
